import Mathlib

/-!
Verification of the Data-Manager cross-file relation engine.

The definitions below are a shallow embedding of the Python sources:
  * `src/modules/cross_relation.py` — phone/email column classification,
    phone normalization, the SQLite-backed index, the background reindexer
    and the three cross-file group queries;
  * `src/modules/shared.py` — email normalization, the per-file phone
    normalizer and the single-file duplicate marker.

Python strings are modelled as `List Char` (Lean `String`s wrap such a
list), machine-level details that the claims do not touch (SQLite, threads,
pandas frames) are modelled by explicit state passing, and fallible reads
return `Option`.
-/

/- ── Python `str` primitives ──────────────────────────────────────────── -/

/-- Characters removed by Python `str.strip()` (ASCII whitespace). -/
def isSpaceChar (c : Char) : Bool :=
  c == ' ' || c == '\t' || c == '\n' || c == '\r' ||
  c == Char.ofNat 11 || c == Char.ofNat 12

/-- Python `s.strip()`. -/
def trimL (l : List Char) : List Char :=
  ((l.dropWhile isSpaceChar).reverse.dropWhile isSpaceChar).reverse

/-- Python `s.lower()` (basic Latin letters, as all inputs of interest). -/
def lowerL (l : List Char) : List Char := l.map Char.toLower

/-- Python `s[:-2] if s.endswith(".0") else s`. -/
def stripDot0 (l : List Char) : List Char :=
  match l.reverse with
  | '0' :: '.' :: rest => rest.reverse
  | _ => l

namespace CrossRel

/- ── normalize_phone (cross_relation.py, lines 93–122) ────────────────── -/

/-- The regex character class `[6-9]`. -/
def isMob (c : Char) : Bool := decide ('6' ≤ c ∧ c ≤ '9')

/-- Negative lookbehind `(?<!\d)`: the character before the match position
(`none` at the start of the string) must not be a digit. -/
def prevND : Option Char → Bool
  | none => true
  | some p => !p.isDigit

/-- Negative lookahead `(?!\d)`: the first remaining character (if any) must
not be a digit. -/
def headND : List Char → Bool
  | [] => true
  | c :: _ => !c.isDigit

/-- `re.search` for `_RX_MOBILE_BARE = (?<!\d)([6-9]\d{9})(?!\d)`:
scan left to right, carrying the previous character for the lookbehind;
on success return group 1 (the ten digits). -/
def bareGo : Option Char → List Char → Option (List Char)
  | _, [] => none
  | prev, c :: rest =>
    if prevND prev && isMob c && decide (9 ≤ rest.length) &&
       (rest.take 9).all Char.isDigit && headND (rest.drop 9) then
      some (c :: rest.take 9)
    else
      bareGo (some c) rest

def bareSearch (l : List Char) : Option (List Char) := bareGo none l

/-- `re.search` for `_RX_MOBILE_LEAD0 = (?<!\d)(0([6-9]\d{9}))(?!\d)`;
on success return group 2 (the ten digits after the zero). -/
def lead0Go : Option Char → List Char → Option (List Char)
  | _, [] => none
  | prev, c :: rest =>
    if prevND prev && c == '0' && decide (10 ≤ rest.length) &&
       isMob (rest.headD ' ') && ((rest.drop 1).take 9).all Char.isDigit &&
       headND (rest.drop 10) then
      some (rest.take 10)
    else
      lead0Go (some c) rest

def lead0Search (l : List Char) : Option (List Char) := lead0Go none l

/-- `normalize_phone` from `cross_relation.py` on the character list of the
input string.  Follows the source line by line: strip, null-word check,
trailing-`.0` strip, digit extraction, the two regex extractions, then the
length-based fallback ladder on the digit-only string. -/
def normPhoneList (l : List Char) : Option (List Char) :=
  let s₁ := trimL l
  if s₁ = [] ∨ lowerL s₁ = "nan".toList ∨ lowerL s₁ = "none".toList ∨
     lowerL s₁ = "null".toList then none
  else
    let s₂ := stripDot0 s₁
    let d := s₂.filter Char.isDigit
    if d = [] then none
    else
      match bareSearch s₂ with
      | some r => some r
      | none =>
        match lead0Search s₂ with
        | some r => some r
        | none =>
          if 10 ≤ d.length then
            if d.take 2 = ['9', '1'] ∧ d.length = 12 ∧ isMob (d.getD 2 ' ') then
              some (d.drop 2)
            else if d.take 1 = ['0'] ∧ d.length = 11 ∧ isMob (d.getD 1 ' ') then
              some (d.drop 1)
            else if d.length = 10 then some d
            else if d.length ≤ 12 then some (d.drop (d.length - 10))
            else none
          else if 7 ≤ d.length then some d
          else none

/-- `normalize_phone` at the `String` level. -/
def normalize_phone (s : String) : Option String :=
  (normPhoneList s.toList).map fun l => String.mk l

/- ── Column classifier (cross_relation.py, lines 37–83) ───────────────── -/

/-- `_PHONE_KEYWORDS` from `cross_relation.py`. -/
def _PHONE_KEYWORDS : List String :=
  ["phone", "mobile", "mobileno", "mob",
   "cell", "telephone",
   "whatsapp", "contact_no", "contactno", "contact_num",
   "phone_no", "phoneno", "phone_num", "phone_number",
   "mobile_no", "mob_no", "mob_num",
   "tel_no", "telno", "tel_num",
   "cell_no", "cellno",
   "resphone", "res_phone", "alt_phone",
   "landline", "phn", "ph_no", "phno"]

/-- `_PHONE_EXCLUDES` from `cross_relation.py`. -/
def _PHONE_EXCLUDES : List String :=
  ["zip", "pin_code", "pincode", "postal", "bus_pin",
   "emp_id", "employee_id", "empid",
   "customer_id", "cust_id", "custid",
   "order_id", "orderid", "invoice", "inv_no",
   "account_no", "accountno", "acc_no",
   "loan_id", "loanid", "ref_no", "refno", "reference",
   "serial_no", "serialno", "sr_no", "srno",
   "two_wheeler", "four_wheeler",
   "income", "salary", "credit_lim", "amount", "price",
   "qty", "quantity", "age", "year", "month",
   "date", "time", "rating", "score", "rank"]

/-- `p.isPrefixOf l` written out, so its characterisation is proved here. -/
def startsWithL : List Char → List Char → Bool
  | [], _ => true
  | _ :: _, [] => false
  | a :: as, b :: bs => a == b && startsWithL as bs

/-- Python `needle in hay` (substring test). -/
def containsSub (needle : List Char) : List Char → Bool
  | [] => needle.isEmpty
  | c :: rest => startsWithL needle (c :: rest) || containsSub needle rest

/-- The `(_|$|\d)` tail of the keyword patterns: the character after the
keyword (if any) must be an underscore or a digit. -/
def afterBoundary : List Char → Bool
  | [] => true
  | c :: _ => c == '_' || c.isDigit

/-- Does `(^|_)kw(_|$|\d)` match with the keyword anchored at the head of
`l`?  (The `(^|_)` half is handled by the caller's boundary flag.) -/
def kwMatchAt (kw l : List Char) : Bool :=
  startsWithL kw l && afterBoundary (l.drop kw.length)

/-- `re.search` for `(^|_)kw(_|$|\d)`: scan positions left to right; `bnd`
records whether the current position is the start of the string or preceded
by an underscore. -/
def kwSearchGo (kw : List Char) : Bool → List Char → Bool
  | _, [] => false
  | bnd, c :: rest => (bnd && kwMatchAt kw (c :: rest)) || kwSearchGo kw (c == '_') rest

def kwSearch (kw l : List Char) : Bool := kwSearchGo kw true l

/-- `_is_phone_col` from `cross_relation.py`. -/
def _is_phone_col (col : String) : Bool :=
  let c := trimL (lowerL col.toList)
  if _PHONE_EXCLUDES.any fun ex => containsSub ex.toList c then false
  else _PHONE_KEYWORDS.any fun kw => kwSearch kw.toList c

end CrossRel

namespace Shared

/- ── normalize_email (shared.py, lines 426–435) ───────────────────────── -/

/-- The `EMPTY_VALUES` literal set from `shared.py`. -/
def EMPTY_VALUES : List (List Char) :=
  ["".toList, "nan".toList, "none".toList, "null".toList,
   "n/a".toList, "na".toList, "-".toList, "nil".toList]

/-- `normalize_email` from `shared.py`: the `if not email` falsiness guard,
then strip + lower, then the null-word check. -/
def normalize_email (email : String) : Option String :=
  if email = "" then none
  else
    let val := lowerL (trimL email.toList)
    if val ∈ EMPTY_VALUES then none else some (String.mk val)

/- ── normalize_phone (shared.py, lines 393–424) ───────────────────────── -/

/-- `normalize_phone` from `shared.py` on a character list: strip, strip a
trailing `.0`, keep digits, strip a leading `91` country code when more
than 10 digits remain, accept 7–12 digit results. -/
def normPhoneSharedList (l : List Char) : Option (List Char) :=
  let s := stripDot0 (trimL l)
  let d := s.filter Char.isDigit
  let d₂ := if d.take 2 = ['9', '1'] ∧ 10 < d.length then d.drop 2 else d
  if 7 ≤ d₂.length ∧ d₂.length ≤ 12 then some d₂ else none

/-- `normalize_phone` from `shared.py` at the `String` level (`if not
phone` rejects the empty string). -/
def normalize_phone (phone : String) : Option String :=
  if phone = "" then none
  else (normPhoneSharedList phone.toList).map fun l => String.mk l

/- ── detect_duplicates (shared.py, lines 500–556) ─────────────────────── -/

/-- `notna & (col != "")`: the cell holds a real non-empty value. -/
def hasVal : Option String → Bool
  | none => false
  | some v => v != ""

/-- `detect_duplicates` from `shared.py`, applied to one table.  The table
is given by the detected phone/email columns: `hasPhoneCol`/`hasEmailCol`
say whether `_detect_phone_email_cols` found each column, and `rows` holds
the raw cell text of those columns per row.  Output: per row, the flags
`(__dup_combined__, __dup_phone__, __dup_email__)`.  `df.duplicated(subset,
keep=False)` marks a row when its key occurs at least twice in the column
(pandas treats equal keys with missing values as duplicates of each other,
hence plain `Option` equality). -/
def detect_duplicates (hasPhoneCol hasEmailCol : Bool) (rows : List (String × String)) :
    List (Bool × Bool × Bool) :=
  let norm := rows.map fun pe =>
    ((if hasPhoneCol then normalize_phone pe.1 else none),
     (if hasEmailCol then normalize_email pe.2 else none))
  norm.map fun r =>
    let combined := hasPhoneCol && hasEmailCol && hasVal r.1 && hasVal r.2 &&
      decide (2 ≤ norm.count r)
    let phoneFlag := hasPhoneCol && hasVal r.1 &&
      decide (2 ≤ (norm.map Prod.fst).count r.1) && !combined
    let emailFlag := hasEmailCol && hasVal r.2 &&
      decide (2 ≤ (norm.map Prod.snd).count r.2) && !combined
    (combined, phoneFlag, emailFlag)

end Shared

namespace CrossRel

/- ── The SQLite index (cross_relation.py, lines 169–306) ──────────────── -/

/-- One row of the `cross_rel_index` table. -/
structure IndexRow where
  dataset_id : Nat
  user_id : Nat
  phone_norm : Option String
  email_norm : Option String
  mtime : ℚ
deriving DecidableEq

/-- The persisted index: the fact table, the `cross_rel_meta` table
(`dataset_id → mtime`, primary key on `dataset_id`), and the in-process
`_REBUILDING` marker set. -/
structure IndexState where
  rows : List IndexRow
  meta : List (Nat × ℚ)
  rebuilding : List Nat
deriving DecidableEq

/-- `SELECT mtime FROM cross_rel_meta WHERE dataset_id = ?` over the
association list. -/
def metaLookup : List (Nat × ℚ) → Nat → Option ℚ
  | [], _ => none
  | (k, v) :: tl, id => if k = id then some v else metaLookup tl id

/-- `_get_indexed_mtime`: the stored mtime for the dataset, or `0`. -/
def _get_indexed_mtime (st : IndexState) (id : Nat) : ℚ :=
  match metaLookup st.meta id with
  | some m => m
  | none => 0

/-- `_index_dataset`.  File IO is external, so the outcome of
`read_file` + `_detect_cols` is a parameter: `readResult = none` models a
missing path or a read/parse failure (the early `return` branches);
`some data` gives, per source row, the raw phone/email cell (already
`none` when no phone/email column was detected).  `dbOk` models whether
the single SQLite write transaction commits; on failure the `with conn`
block rolls back.  The `finally` block removes the `_REBUILDING` marker —
note the source only reaches it after a successful read. -/
def _index_dataset (st : IndexState) (id uid : Nat)
    (readResult : Option (List (Option String × Option String))) (m : ℚ)
    (dbOk : Bool) : IndexState :=
  match readResult with
  | none => st
  | some data =>
    let newRows := data.filterMap fun pe =>
      let p := pe.1.bind normalize_phone
      let e := pe.2.bind Shared.normalize_email
      if p.isSome ∨ e.isSome then some (IndexRow.mk id uid p e m) else none
    if dbOk then
      IndexState.mk
        ((st.rows.filter fun r => decide (r.dataset_id ≠ id)) ++ newRows)
        ((st.meta.filter fun q => decide (q.1 ≠ id)) ++ [(id, m)])
        (st.rebuilding.filter fun x => decide (x ≠ id))
    else
      IndexState.mk st.rows st.meta (st.rebuilding.filter fun x => decide (x ≠ id))

/-- The loop body chain of `_ensure_datasets_indexed`: fold over the
datasets (given as `(id, current on-disk mtime)` pairs), accumulating the
`all_ready` flag, the ids handed to background threads, and the updated
rebuilding set. -/
def ensureGo (st : IndexState) : List (Nat × ℚ) → Bool → List Nat →
    Bool × List Nat × IndexState
  | [], ready, sched => (ready, sched, st)
  | (id, cur) :: rest, ready, sched =>
    if cur = _get_indexed_mtime st id then
      ensureGo st rest ready sched
    else if st.rebuilding.contains id then
      ensureGo st rest false sched
    else
      ensureGo (IndexState.mk st.rows st.meta (id :: st.rebuilding)) rest false (id :: sched)

/-- `_ensure_datasets_indexed`: returns `(all_ready, scheduled ids, state)`. -/
def _ensure_datasets_indexed (st : IndexState) (datasets : List (Nat × ℚ)) :
    Bool × List Nat × IndexState :=
  ensureGo st datasets true []

/- ── _query_groups (cross_relation.py, lines 313–431) ─────────────────── -/

/-- A match group as assembled by `_query_groups`. -/
structure MatchGroup where
  phone : Option String
  email : Option String
  mode : String
  total_records : Nat
  file_ids : List Nat
  user_ids : List Nat
deriving DecidableEq

/-- The result dictionary of `_query_groups`. -/
structure GroupResult where
  combined : List MatchGroup
  phone : List MatchGroup
  email : List MatchGroup
deriving DecidableEq

/-- Rows matching one `(phone_norm, email_norm)` combined key within the
requested datasets (the combined query's `WHERE` + `GROUP BY`). -/
def combinedRows (rows : List IndexRow) (ids : List Nat) (p e : String) : List IndexRow :=
  rows.filter fun r =>
    decide (r.dataset_id ∈ ids ∧ r.phone_norm = some p ∧ r.email_norm = some e)

/-- Rows matching one `phone_norm` key within the requested datasets. -/
def phoneRows (rows : List IndexRow) (ids : List Nat) (p : String) : List IndexRow :=
  rows.filter fun r => decide (r.dataset_id ∈ ids ∧ r.phone_norm = some p)

/-- Rows matching one `email_norm` key within the requested datasets. -/
def emailRows (rows : List IndexRow) (ids : List Nat) (e : String) : List IndexRow :=
  rows.filter fun r => decide (r.dataset_id ∈ ids ∧ r.email_norm = some e)

/-- `GROUP_CONCAT(DISTINCT dataset_id)` for a group's rows. -/
def dsIdsFor (matching : List IndexRow) : List Nat :=
  (matching.map fun r => r.dataset_id).dedup

/-- `GROUP_CONCAT(DISTINCT user_id)` for a group's rows. -/
def uIdsFor (matching : List IndexRow) : List Nat :=
  (matching.map fun r => r.user_id).dedup

/-- The distinct `(phone_norm, email_norm)` keys produced by the combined
query's `GROUP BY` (both columns non-`NULL`, datasets restricted). -/
def combinedKeyList (rows : List IndexRow) (ids : List Nat) : List (String × String) :=
  (rows.filterMap fun r =>
    if r.dataset_id ∈ ids then
      match r.phone_norm, r.email_norm with
      | some p, some e => some (p, e)
      | _, _ => none
    else none).dedup

/-- The distinct non-`NULL` `phone_norm` keys of the phone query. -/
def phoneKeyList (rows : List IndexRow) (ids : List Nat) : List String :=
  (rows.filterMap fun r => if r.dataset_id ∈ ids then r.phone_norm else none).dedup

/-- The distinct non-`NULL` `email_norm` keys of the email query. -/
def emailKeyList (rows : List IndexRow) (ids : List Nat) : List String :=
  (rows.filterMap fun r => if r.dataset_id ∈ ids then r.email_norm else none).dedup

/-- The Python-side user filter: a group is kept when the filter set is
falsy (empty) or some of the group's user ids belongs to it. -/
def passesFilter (filt : List Nat) (uids : List Nat) : Bool :=
  filt.isEmpty || uids.any fun u => filt.contains u

/-- `combined_keys`: the `(phone, email)` keys that survive the `HAVING
COUNT(DISTINCT dataset_id) >= 2` clause and the user filter — exactly the
keys the source records in its `combined_keys` set. -/
def combinedKeys (rows : List IndexRow) (ids filt : List Nat) : List (String × String) :=
  (combinedKeyList rows ids).filter fun k =>
    decide (2 ≤ (dsIdsFor (combinedRows rows ids k.1 k.2)).length) &&
    passesFilter filt (uIdsFor (combinedRows rows ids k.1 k.2))

/-- The `combined_groups` list. -/
def combinedGroups (rows : List IndexRow) (ids filt : List Nat) : List MatchGroup :=
  (combinedKeys rows ids filt).map fun k =>
    MatchGroup.mk (some k.1) (some k.2) "combined"
      (combinedRows rows ids k.1 k.2).length
      (dsIdsFor (combinedRows rows ids k.1 k.2))
      (uIdsFor (combinedRows rows ids k.1 k.2))

/-- The `phone_groups` list: phone keys spanning two datasets, not already
the phone half of a recorded combined key, passing the user filter. -/
def phoneGroups (rows : List IndexRow) (ids filt : List Nat) : List MatchGroup :=
  ((phoneKeyList rows ids).filter fun p =>
    decide (2 ≤ (dsIdsFor (phoneRows rows ids p)).length) &&
    !(combinedKeys rows ids filt).any (fun k => k.1 == p) &&
    passesFilter filt (uIdsFor (phoneRows rows ids p))).map fun p =>
    MatchGroup.mk (some p) none "phone"
      (phoneRows rows ids p).length
      (dsIdsFor (phoneRows rows ids p))
      (uIdsFor (phoneRows rows ids p))

/-- The `email_groups` list, symmetric to `phoneGroups`. -/
def emailGroups (rows : List IndexRow) (ids filt : List Nat) : List MatchGroup :=
  ((emailKeyList rows ids).filter fun e =>
    decide (2 ≤ (dsIdsFor (emailRows rows ids e)).length) &&
    !(combinedKeys rows ids filt).any (fun k => k.2 == e) &&
    passesFilter filt (uIdsFor (emailRows rows ids e))).map fun e =>
    MatchGroup.mk none (some e) "email"
      (emailRows rows ids e).length
      (dsIdsFor (emailRows rows ids e))
      (uIdsFor (emailRows rows ids e))

/-- `_query_groups`: the empty-request short circuit, then the three
grouped lists.  (Result ordering — `ORDER BY total_records DESC` — does not
affect membership and is not modelled.) -/
def _query_groups (rows : List IndexRow) (ids filt : List Nat) : GroupResult :=
  if ids = [] then GroupResult.mk [] [] []
  else GroupResult.mk (combinedGroups rows ids filt) (phoneGroups rows ids filt)
    (emailGroups rows ids filt)

end CrossRel

/- ── Specification-side predicates (spec §4.2 wording) ────────────────── -/

/-- `needle` occurs somewhere inside `hay` (Python `needle in hay`). -/
def SubstringOcc (needle hay : List Char) : Prop :=
  ∃ pre post, hay = pre ++ needle ++ post

/-- The spec §4.2 boundary rule: the keyword occurs at the start of the
name or immediately after an underscore, and is followed by end-of-string,
an underscore, or a digit. -/
def BoundaryOcc (kw name : List Char) : Prop :=
  ∃ pre post, name = pre ++ kw ++ post ∧
    (pre = [] ∨ ∃ pre', pre = pre' ++ ['_']) ∧
    (post = [] ∨ ∃ c rest, post = c :: rest ∧ (c = '_' ∨ c.isDigit = true))

/- ── Shared witness data ──────────────────────────────────────────────── -/

/-- Concrete index rows used to instantiate the group-query theorems: one
phone+email pair shared by datasets 1 and 2, one bare phone shared by
datasets 1 and 2. -/
def Wrows : List CrossRel.IndexRow :=
  [CrossRel.IndexRow.mk 1 1 (some "7000000001") (some "a@x.com") 0,
   CrossRel.IndexRow.mk 2 2 (some "7000000001") (some "a@x.com") 0,
   CrossRel.IndexRow.mk 1 1 (some "8000000002") none 0,
   CrossRel.IndexRow.mk 2 2 (some "8000000002") none 0]

/- ── Claim theorems ───────────────────────────────────────────────────── -/

/-- C1: strict classification of cross-file groups.  For every collection
of index rows, requested dataset ids and user filter, no phone value of a
returned combined group's key is also returned as a phone-only group, and
no email value of a combined group's key is also returned as an email-only
group. -/
theorem c1_strict_classification (rows : List CrossRel.IndexRow) (ids filt : List Nat) :
    (∀ pg ∈ (CrossRel._query_groups rows ids filt).phone,
      ∀ cg ∈ (CrossRel._query_groups rows ids filt).combined, pg.phone ≠ cg.phone) ∧
    (∀ eg ∈ (CrossRel._query_groups rows ids filt).email,
      ∀ cg ∈ (CrossRel._query_groups rows ids filt).combined, eg.email ≠ cg.email) := by
  by_cases h : ids = []
  · constructor <;> intro g hg <;> simp [CrossRel._query_groups, h] at hg
  · constructor
    · intro pg hpg cg hcg
      simp only [CrossRel._query_groups, if_neg h] at hpg hcg
      rcases List.mem_map.1 hpg with ⟨p, hpmem, rfl⟩
      rcases List.mem_map.1 hcg with ⟨k, hkmem, rfl⟩
      rcases List.mem_filter.1 hpmem with ⟨-, hcond⟩
      simp only [Bool.and_eq_true, Bool.not_eq_true'] at hcond
      intro hEq
      simp only [Option.some.injEq] at hEq
      have hany : (CrossRel.combinedKeys rows ids filt).any (fun k => k.1 == p) = true :=
        List.any_eq_true.2 ⟨k, hkmem, by simp [hEq.symm]⟩
      rw [hany] at hcond
      exact absurd hcond.1.2 (by simp)
    · intro eg heg cg hcg
      simp only [CrossRel._query_groups, if_neg h] at heg hcg
      rcases List.mem_map.1 heg with ⟨e, hemem, rfl⟩
      rcases List.mem_map.1 hcg with ⟨k, hkmem, rfl⟩
      rcases List.mem_filter.1 hemem with ⟨-, hcond⟩
      simp only [Bool.and_eq_true, Bool.not_eq_true'] at hcond
      intro hEq
      simp only [Option.some.injEq] at hEq
      have hany : (CrossRel.combinedKeys rows ids filt).any (fun k => k.2 == e) = true :=
        List.any_eq_true.2 ⟨k, hkmem, by simp [hEq.symm]⟩
      rw [hany] at hcond
      exact absurd hcond.1.2 (by simp)

/-- Witness for C1 at the concrete index of `Wrows`: the returned
phone-only group (for `8000000002`) and combined group (for
`7000000001` / `a@x.com`) indeed carry different phone keys. -/
theorem c1_strict_classification_witness :
    (CrossRel.MatchGroup.mk (some "8000000002") none "phone" 2 [1, 2] [1, 2]).phone ≠
    (CrossRel.MatchGroup.mk (some "7000000001") (some "a@x.com") "combined" 2 [1, 2] [1, 2]).phone :=
  (c1_strict_classification Wrows [1, 2] []).1 _ (by decide) _ (by decide)

/-- C3: every group returned by `_query_groups`, in any of the three
modes, spans at least two distinct dataset ids. -/
theorem c3_group_min_span (rows : List CrossRel.IndexRow) (ids filt : List Nat) :
    ∀ g : CrossRel.MatchGroup,
      (g ∈ (CrossRel._query_groups rows ids filt).combined ∨
       g ∈ (CrossRel._query_groups rows ids filt).phone ∨
       g ∈ (CrossRel._query_groups rows ids filt).email) →
      g.file_ids.Nodup ∧ 2 ≤ g.file_ids.length := by
  intro g hg
  by_cases h : ids = []
  · simp [CrossRel._query_groups, h] at hg
  · simp only [CrossRel._query_groups, if_neg h] at hg
    rcases hg with hg | hg | hg
    · rcases List.mem_map.1 hg with ⟨k, hkmem, rfl⟩
      rcases List.mem_filter.1 hkmem with ⟨-, hcond⟩
      simp only [Bool.and_eq_true, decide_eq_true_eq] at hcond
      exact ⟨List.nodup_dedup _, hcond.1⟩
    · rcases List.mem_map.1 hg with ⟨p, hpmem, rfl⟩
      rcases List.mem_filter.1 hpmem with ⟨-, hcond⟩
      simp only [Bool.and_eq_true, decide_eq_true_eq] at hcond
      exact ⟨List.nodup_dedup _, hcond.1.1⟩
    · rcases List.mem_map.1 hg with ⟨e, hemem, rfl⟩
      rcases List.mem_filter.1 hemem with ⟨-, hcond⟩
      simp only [Bool.and_eq_true, decide_eq_true_eq] at hcond
      exact ⟨List.nodup_dedup _, hcond.1.1⟩

/-- Witness for C3: the combined group returned for `Wrows` spans the two
distinct datasets 1 and 2. -/
theorem c3_group_min_span_witness :
    (CrossRel.MatchGroup.mk (some "7000000001") (some "a@x.com") "combined" 2 [1, 2] [1, 2]).file_ids.Nodup ∧
    2 ≤ (CrossRel.MatchGroup.mk (some "7000000001") (some "a@x.com") "combined" 2 [1, 2] [1, 2]).file_ids.length :=
  c3_group_min_span Wrows [1, 2] [] _ (Or.inl (by decide))

/-- C4 (code-bug evidence): `detect_duplicates` marks the first row of the
three-row table `(7000000001, a@x.com) / (7000000001, b@x.com) /
(7000000002, a@x.com)` with `__dup_phone__` and `__dup_email__`
simultaneously — the flags are not mutually exclusive, contradicting the
function's own docstring "Each row belongs to exactly ONE duplicate
category". -/
theorem c4_dup_flags_not_mutually_exclusive :
    Shared.detect_duplicates true true
      [("7000000001", "a@x.com"), ("7000000001", "b@x.com"), ("7000000002", "a@x.com")] =
      [(false, true, true), (false, true, false), (false, false, true)] ∧
    ∃ f ∈ Shared.detect_duplicates true true
      [("7000000001", "a@x.com"), ("7000000001", "b@x.com"), ("7000000002", "a@x.com")],
      f.2.1 = true ∧ f.2.2 = true := by decide

/-- After a reindex replaces the meta rows for `id`, looking `id` up finds
exactly the freshly written mtime. -/
theorem metaLookup_replace (meta : List (Nat × ℚ)) (id : Nat) (m : ℚ) :
    CrossRel.metaLookup ((meta.filter fun q => decide (q.1 ≠ id)) ++ [(id, m)]) id = some m := by
  induction meta with
  | nil => simp [CrossRel.metaLookup]
  | cons hd tl ih =>
    rw [List.filter_cons]
    by_cases hk : hd.1 = id
    · rw [if_neg (by simp [hk])]
      exact ih
    · rw [if_pos (by simp [hk])]
      rcases hd with ⟨k, v⟩
      rw [List.cons_append, CrossRel.metaLookup, if_neg hk]
      exact ih

/-- A successful `_index_dataset` stores `m` as the indexed mtime of `id`. -/
theorem indexed_mtime_after (st : CrossRel.IndexState) (id uid : Nat)
    (data : List (Option String × Option String)) (m : ℚ) :
    CrossRel._get_indexed_mtime (CrossRel._index_dataset st id uid (some data) m true) id = m := by
  have hmeta : (CrossRel._index_dataset st id uid (some data) m true).meta =
      (st.meta.filter fun q => decide (q.1 ≠ id)) ++ [(id, m)] := rfl
  rw [CrossRel._get_indexed_mtime, hmeta, metaLookup_replace]

/-- `ensureGo` never schedules a dataset whose every listed on-disk mtime
agrees with its indexed mtime (the fold only mutates `rebuilding`, so the
indexed mtimes stay fixed along the way). -/
theorem ensure_not_scheduled (id : Nat) :
    ∀ (ds : List (Nat × ℚ)) (st : CrossRel.IndexState) (ready : Bool) (sched : List Nat),
    (∀ mt, (id, mt) ∈ ds → mt = CrossRel._get_indexed_mtime st id) → id ∉ sched →
    id ∉ (CrossRel.ensureGo st ds ready sched).2.1 := by
  intro ds
  induction ds with
  | nil => intro st ready sched _ hs; simpa [CrossRel.ensureGo] using hs
  | cons hd tl ih =>
    intro st ready sched hcur hs
    rcases hd with ⟨i, cur⟩
    by_cases h1 : cur = CrossRel._get_indexed_mtime st i
    · rw [CrossRel.ensureGo, if_pos h1]
      exact ih st ready sched (fun mt hmt => hcur mt (List.mem_cons_of_mem _ hmt)) hs
    · rw [CrossRel.ensureGo, if_neg h1]
      have hne : i ≠ id := by
        intro hii
        subst hii
        exact h1 (hcur cur (List.mem_cons_self _ _))
      by_cases h2 : st.rebuilding.contains i = true
      · rw [if_pos h2]
        exact ih st false sched (fun mt hmt => hcur mt (List.mem_cons_of_mem _ hmt)) hs
      · rw [if_neg h2]
        refine ih _ false (i :: sched) (fun mt hmt => hcur mt (List.mem_cons_of_mem _ hmt)) ?_
        simp only [List.mem_cons, not_or]
        exact ⟨fun hid => hne hid.symm, hs⟩

/-- `ensureGo` keeps its `all_ready` accumulator when every dataset in the
input is current. -/
theorem ensure_all_ready :
    ∀ (ds : List (Nat × ℚ)) (st : CrossRel.IndexState) (ready : Bool) (sched : List Nat),
    (∀ d ∈ ds, d.2 = CrossRel._get_indexed_mtime st d.1) →
    (CrossRel.ensureGo st ds ready sched).1 = ready := by
  intro ds
  induction ds with
  | nil => intro st ready sched _; rfl
  | cons hd tl ih =>
    intro st ready sched hcur
    rcases hd with ⟨i, cur⟩
    rw [CrossRel.ensureGo, if_pos (hcur (i, cur) (List.mem_cons_self _ _))]
    exact ih st ready sched fun d hd => hcur d (List.mem_cons_of_mem _ hd)

/-- C5: freshness is monotone after a successful reindex.  After
`_index_dataset` succeeds with mtime `m`, `_get_indexed_mtime` returns
`m`; a subsequent `_ensure_datasets_indexed` whose entry for that dataset
still carries on-disk mtime `m` schedules no rebuild for it, and it
returns `true` when every dataset in the input is current. -/
theorem c5_freshness_monotone (st : CrossRel.IndexState) (id uid : Nat)
    (data : List (Option String × Option String)) (m : ℚ) (datasets : List (Nat × ℚ)) :
    CrossRel._get_indexed_mtime (CrossRel._index_dataset st id uid (some data) m true) id = m ∧
    ((∀ mt, (id, mt) ∈ datasets → mt = m) →
      id ∉ (CrossRel._ensure_datasets_indexed
              (CrossRel._index_dataset st id uid (some data) m true) datasets).2.1) ∧
    ((∀ d ∈ datasets,
        d.2 = CrossRel._get_indexed_mtime (CrossRel._index_dataset st id uid (some data) m true) d.1) →
      (CrossRel._ensure_datasets_indexed
        (CrossRel._index_dataset st id uid (some data) m true) datasets).1 = true) := by
  have hm := indexed_mtime_after st id uid data m
  refine ⟨hm, ?_, ?_⟩
  · intro hcur
    exact ensure_not_scheduled id datasets _ true []
      (fun mt hmt => by rw [hm]; exact hcur mt hmt) (by simp)
  · intro hcur
    exact ensure_all_ready datasets _ true [] hcur

/-- Witness for C5: on the empty index, reindexing dataset 1 with mtime 5
and one indexed row, then running the freshness check on `[(1, 5)]`, finds
the stored mtime 5, schedules nothing, and reports all-ready. -/
theorem c5_freshness_monotone_witness :
    CrossRel._get_indexed_mtime
      (CrossRel._index_dataset (CrossRel.IndexState.mk [] [] []) 1 1
        (some [(some "7000000001", none)]) 5 true) 1 = 5 ∧
    1 ∉ (CrossRel._ensure_datasets_indexed
          (CrossRel._index_dataset (CrossRel.IndexState.mk [] [] []) 1 1
            (some [(some "7000000001", none)]) 5 true) [(1, 5)]).2.1 ∧
    (CrossRel._ensure_datasets_indexed
      (CrossRel._index_dataset (CrossRel.IndexState.mk [] [] []) 1 1
        (some [(some "7000000001", none)]) 5 true) [(1, 5)]).1 = true :=
  have h := c5_freshness_monotone (CrossRel.IndexState.mk [] [] []) 1 1
    [(some "7000000001", none)] 5 [(1, 5)]
  ⟨h.1, h.2.1 (fun mt hmt => by simpa using hmt), h.2.2 (by decide)⟩

/-- C6: reindex is atomic under read failure.  When reading or parsing the
dataset's file fails (`readResult = none`, covering the missing-path and
unreadable-content early returns), `_index_dataset` leaves the stored
index rows and the metadata untouched; the embedding is a total function,
so no exception escapes the background task. -/
theorem c6_reindex_atomic_read_failure (st : CrossRel.IndexState) (id uid : Nat)
    (m : ℚ) (dbOk : Bool) :
    (CrossRel._index_dataset st id uid none m dbOk).rows = st.rows ∧
    (CrossRel._index_dataset st id uid none m dbOk).meta = st.meta :=
  ⟨rfl, rfl⟩

/-- `normalize_email` returns `none` exactly when the stripped, lowercased
input is one of the literal null words. -/
theorem normalize_email_eq_none_iff (s : String) :
    Shared.normalize_email s = none ↔ lowerL (trimL s.toList) ∈ Shared.EMPTY_VALUES := by
  rw [Shared.normalize_email]
  by_cases hs : s = ""
  · subst hs
    exact ⟨fun _ => by decide, fun _ => by rw [if_pos rfl]⟩
  · rw [if_neg hs]
    by_cases hmem : lowerL (trimL s.toList) ∈ Shared.EMPTY_VALUES
    · simp [hmem]
    · simp [hmem]

/-- A non-null `normalize_email` result is the stripped, lowercased input
verbatim. -/
theorem normalize_email_some_eq (s v : String) (h : Shared.normalize_email s = some v) :
    v = String.mk (lowerL (trimL s.toList)) := by
  rw [Shared.normalize_email] at h
  by_cases hs : s = ""
  · rw [if_pos hs] at h
    cases h
  · rw [if_neg hs] at h
    by_cases hmem : lowerL (trimL s.toList) ∈ Shared.EMPTY_VALUES
    · rw [if_pos hmem] at h
      cases h
    · rw [if_neg hmem] at h
      exact (Option.some.injEq _ _ ▸ h).symm

/-- C7: `normalize_email` trims and lowercases its input, returns null
exactly when the trimmed lowercased value is one of the eight literal null
words, and otherwise returns the trimmed lowercased string verbatim; in
particular on `"  Foo@Bar.com "` and `"NaN"`. -/
theorem c7_normalize_email_spec :
    (∀ s : String,
      (Shared.normalize_email s = none ↔
        (lowerL (trimL s.toList) = "".toList ∨ lowerL (trimL s.toList) = "nan".toList ∨
         lowerL (trimL s.toList) = "none".toList ∨ lowerL (trimL s.toList) = "null".toList ∨
         lowerL (trimL s.toList) = "n/a".toList ∨ lowerL (trimL s.toList) = "na".toList ∨
         lowerL (trimL s.toList) = "-".toList ∨ lowerL (trimL s.toList) = "nil".toList)) ∧
      (∀ v, Shared.normalize_email s = some v → v = String.mk (lowerL (trimL s.toList)))) ∧
    Shared.normalize_email "  Foo@Bar.com " = some "foo@bar.com" ∧
    Shared.normalize_email "NaN" = none := by
  refine ⟨?_, by decide, by decide⟩
  intro s
  refine ⟨?_, fun v hv => normalize_email_some_eq s v hv⟩
  rw [normalize_email_eq_none_iff]
  simp [Shared.EMPTY_VALUES]

/-- Witness for C7: instantiating the null-word direction at `"NaN"`. -/
theorem c7_normalize_email_spec_witness : Shared.normalize_email "NaN" = none :=
  ((c7_normalize_email_spec.1 "NaN").1).mpr (by decide)

example : CrossRel.normalize_phone "9848360170(M) 08468 229462" = some "9848360170" := by decide
example : CrossRel.normalize_phone "919876543210" = some "9876543210" := by decide
example : CrossRel.normalize_phone "09876543210" = some "9876543210" := by decide
example : CrossRel.normalize_phone "1234567890123" = none := by decide
example : CrossRel.normalize_phone "  984-836-0170.0" = some "9848360170" := by decide
example : CrossRel.normalize_phone "nan" = none := by decide
example : CrossRel.normalize_phone "12345678901" = some "2345678901" := by decide
example : CrossRel.normalize_phone "1234567" = some "1234567" := by decide
example : CrossRel.normalize_phone "123456" = none := by decide
example : CrossRel._is_phone_col "phone_no" = true := by decide
example : CrossRel._is_phone_col "res_phone" = true := by decide
example : CrossRel._is_phone_col "mobile1" = true := by decide
example : CrossRel._is_phone_col "curphone1" = false := by decide
example : CrossRel._is_phone_col "busphone2" = false := by decide
example : Shared.normalize_email "  Foo@Bar.com " = some "foo@bar.com" := by decide
example : Shared.normalize_email "NaN" = none := by decide
example : Shared.normalize_phone "919876543210" = some "9876543210" := by decide
example : Shared.detect_duplicates true true
    [("7000000001", "a@x.com"), ("7000000001", "b@x.com"), ("7000000002", "a@x.com")] =
    [(false, true, true), (false, true, false), (false, false, true)] := by decide

/-- `startsWithL` detects exactly the lists extending the pattern. -/
theorem startsWithL_iff : ∀ (p l : List Char),
    CrossRel.startsWithL p l = true ↔ ∃ post, l = p ++ post := by
  intro p
  induction p with
  | nil => intro l; simp [CrossRel.startsWithL]
  | cons a as ih =>
    intro l
    cases l with
    | nil => simp [CrossRel.startsWithL]
    | cons b bs =>
      rw [CrossRel.startsWithL]
      simp only [Bool.and_eq_true, beq_iff_eq, ih bs]
      constructor
      · rintro ⟨rfl, post, rfl⟩
        exact ⟨post, rfl⟩
      · rintro ⟨post, h⟩
        rw [List.cons_append] at h
        injection h with h1 h2
        exact ⟨h1.symm, post, h2⟩

/-- `containsSub` decides the substring-occurrence predicate. -/
theorem containsSub_iff (needle : List Char) :
    ∀ hay, CrossRel.containsSub needle hay = true ↔ SubstringOcc needle hay := by
  intro hay
  induction hay with
  | nil =>
    rw [CrossRel.containsSub]
    simp only [List.isEmpty_iff, SubstringOcc]
    constructor
    · rintro rfl
      exact ⟨[], [], rfl⟩
    · rintro ⟨pre, post, h⟩
      exact (List.append_eq_nil.1 (List.append_eq_nil.1 h.symm).1).2
  | cons c rest ih =>
    rw [CrossRel.containsSub]
    simp only [Bool.or_eq_true, startsWithL_iff, ih, SubstringOcc]
    constructor
    · rintro (⟨post, h⟩ | ⟨pre, post, h⟩)
      · exact ⟨[], post, by simpa using h⟩
      · exact ⟨c :: pre, post, by simp [h]⟩
    · rintro ⟨pre, post, h⟩
      cases pre with
      | nil => exact Or.inl ⟨post, by simpa using h⟩
      | cons c0 pre1 =>
        rw [List.cons_append, List.cons_append] at h
        injection h with h1 h2
        exact Or.inr ⟨pre1, post, h2⟩

/-- The `(_|$|\d)` check matches the spec's "followed by end-of-string, an
underscore, or a digit". -/
theorem afterBoundary_iff (post : List Char) :
    CrossRel.afterBoundary post = true ↔
      (post = [] ∨ ∃ c rest, post = c :: rest ∧ (c = '_' ∨ c.isDigit = true)) := by
  cases post with
  | nil => simp [CrossRel.afterBoundary]
  | cons c rest =>
    rw [CrossRel.afterBoundary]
    simp only [Bool.or_eq_true, beq_iff_eq]
    constructor
    · intro h
      exact Or.inr ⟨c, rest, rfl, h⟩
    · rintro (h | ⟨c1, rest1, heq, h⟩)
      · exact absurd h (by simp)
      · injection heq with h1 h2
        subst h1
        exact h

/-- Anchored keyword match: the keyword heads the list and the next
character satisfies the boundary. -/
theorem kwMatchAt_iff (kw l : List Char) :
    CrossRel.kwMatchAt kw l = true ↔
      ∃ post, l = kw ++ post ∧ CrossRel.afterBoundary post = true := by
  rw [CrossRel.kwMatchAt]
  simp only [Bool.and_eq_true, startsWithL_iff]
  constructor
  · rintro ⟨⟨post, rfl⟩, hb⟩
    refine ⟨post, rfl, ?_⟩
    simpa [List.drop_append] using hb
  · rintro ⟨post, rfl, hb⟩
    exact ⟨⟨post, rfl⟩, by simpa [List.drop_append] using hb⟩

/-- The regex scan finds a keyword occurrence exactly when one exists with
the start-or-underscore condition on the left (relative to the carried
boundary flag) and the boundary condition on the right. -/
theorem kwSearchGo_iff (kw : List Char) (hk : kw ≠ []) :
    ∀ (l : List Char) (bnd : Bool), CrossRel.kwSearchGo kw bnd l = true ↔
      ∃ pre post, l = pre ++ kw ++ post ∧
        ((pre = [] ∧ bnd = true) ∨ ∃ pre', pre = pre' ++ ['_']) ∧
        CrossRel.afterBoundary post = true := by
  intro l
  induction l with
  | nil =>
    intro bnd
    rw [CrossRel.kwSearchGo]
    constructor
    · intro h
      exact absurd h (by simp)
    · rintro ⟨pre, post, habs, -, -⟩
      exact absurd ((List.append_eq_nil.1 (List.append_eq_nil.1 habs.symm).1).2) hk
  | cons c rest ih =>
    intro bnd
    rw [CrossRel.kwSearchGo]
    simp only [Bool.or_eq_true, Bool.and_eq_true, kwMatchAt_iff, ih]
    constructor
    · rintro (⟨hbnd, post, heq, hb⟩ | ⟨pre1, post, heq, hcond, hb⟩)
      · exact ⟨[], post, by simpa using heq, Or.inl ⟨rfl, hbnd⟩, hb⟩
      · refine ⟨c :: pre1, post, by simp [heq], ?_, hb⟩
        rcases hcond with ⟨rfl, hbeq⟩ | ⟨pre', rfl⟩
        · exact Or.inr ⟨[], by simpa using (beq_iff_eq.1 hbeq)⟩
        · exact Or.inr ⟨c :: pre', by simp⟩
    · rintro ⟨pre, post, heq, hcond, hb⟩
      cases pre with
      | nil =>
        rcases hcond with ⟨-, hbnd⟩ | ⟨pre', habs⟩
        · exact Or.inl ⟨hbnd, post, by simpa using heq, hb⟩
        · exact absurd habs (by simp)
      | cons c0 pre1 =>
        rw [List.cons_append, List.cons_append] at heq
        injection heq with h1 h2
        subst h1
        refine Or.inr ⟨pre1, post, h2, ?_, hb⟩
        rcases hcond with ⟨habs, -⟩ | ⟨pre', hpre⟩
        · cases habs
        · cases pre' with
          | nil =>
            injection hpre with hc hrest
            exact Or.inl ⟨hrest, by simp [hc]⟩
          | cons d pre2 =>
            injection hpre with hc hrest
            exact Or.inr ⟨pre2, hrest⟩

/-- `kwSearch` decides the spec's boundary-occurrence predicate. -/
theorem kwSearch_iff (kw : List Char) (hk : kw ≠ []) (l : List Char) :
    CrossRel.kwSearch kw l = true ↔ BoundaryOcc kw l := by
  rw [CrossRel.kwSearch, kwSearchGo_iff kw hk, BoundaryOcc]
  constructor
  · rintro ⟨pre, post, heq, hcond, hb⟩
    refine ⟨pre, post, heq, ?_, (afterBoundary_iff post).1 hb⟩
    rcases hcond with ⟨rfl, -⟩ | h
    · exact Or.inl rfl
    · exact Or.inr h
  · rintro ⟨pre, post, heq, hcond, hb⟩
    refine ⟨pre, post, heq, ?_, (afterBoundary_iff post).2 hb⟩
    rcases hcond with rfl | h
    · exact Or.inl ⟨rfl, rfl⟩
    · exact Or.inr h

/-- C8: the column classifier's phone-keyword word-boundary rule.  A
column name is classified as a phone column iff no exclude keyword is a
substring of the lowercased, stripped name and some phone keyword occurs
at the start or right after an underscore, followed by end-of-string, an
underscore, or a digit; in particular `phone_no`, `res_phone`, `mobile1`
are admitted and `curphone1`, `busphone2` are rejected. -/
theorem c8_phone_col_word_boundary :
    (∀ col : String,
      CrossRel._is_phone_col col = true ↔
        ((∀ ex ∈ CrossRel._PHONE_EXCLUDES,
            ¬ SubstringOcc ex.toList (trimL (lowerL col.toList))) ∧
         ∃ kw ∈ CrossRel._PHONE_KEYWORDS,
            BoundaryOcc kw.toList (trimL (lowerL col.toList)))) ∧
    CrossRel._is_phone_col "phone_no" = true ∧
    CrossRel._is_phone_col "res_phone" = true ∧
    CrossRel._is_phone_col "mobile1" = true ∧
    CrossRel._is_phone_col "curphone1" = false ∧
    CrossRel._is_phone_col "busphone2" = false := by
  have hne : ∀ kw ∈ CrossRel._PHONE_KEYWORDS, kw.toList ≠ [] := by decide
  refine ⟨?_, by decide, by decide, by decide, by decide, by decide⟩
  intro col
  constructor
  · intro h
    simp only [CrossRel._is_phone_col] at h
    by_cases hex : (CrossRel._PHONE_EXCLUDES.any fun ex =>
        CrossRel.containsSub ex.toList (trimL (lowerL col.toList))) = true
    · rw [if_pos hex] at h
      exact absurd h (by simp)
    · rw [if_neg hex] at h
      refine ⟨?_, ?_⟩
      · intro ex hexmem hocc
        exact hex (List.any_eq_true.2 ⟨ex, hexmem, (containsSub_iff _ _).2 hocc⟩)
      · rcases List.any_eq_true.1 h with ⟨kw, hkwmem, hsearch⟩
        exact ⟨kw, hkwmem, (kwSearch_iff _ (hne kw hkwmem) _).1 hsearch⟩
  · rintro ⟨hexc, kw, hkwmem, hocc⟩
    simp only [CrossRel._is_phone_col]
    have hex : ¬((CrossRel._PHONE_EXCLUDES.any fun ex =>
        CrossRel.containsSub ex.toList (trimL (lowerL col.toList))) = true) := by
      intro hany
      rcases List.any_eq_true.1 hany with ⟨ex, hmem, hcont⟩
      exact hexc ex hmem ((containsSub_iff _ _).1 hcont)
    rw [if_neg hex]
    exact List.any_eq_true.2 ⟨kw, hkwmem, (kwSearch_iff _ (hne kw hkwmem) _).2 hocc⟩

/-- Witness for C8: instantiating the classifier equivalence at
`"phone_no"` yields the exclude-freeness and a boundary occurrence. -/
theorem c8_phone_col_word_boundary_witness :
    (∀ ex ∈ CrossRel._PHONE_EXCLUDES,
        ¬ SubstringOcc ex.toList (trimL (lowerL "phone_no".toList))) ∧
    ∃ kw ∈ CrossRel._PHONE_KEYWORDS,
        BoundaryOcc kw.toList (trimL (lowerL "phone_no".toList)) :=
  (c8_phone_col_word_boundary.1 "phone_no").1 (by decide)

theorem mob_isDigit (c : Char) (h : CrossRel.isMob c = true) : c.isDigit = true := by
  rcases of_decide_eq_true h with ⟨h1, h2⟩
  rw [Char.le_def, UInt32.le_def, BitVec.le_def] at h1 h2
  have e6 : ('6' : Char).val.toBitVec.toNat = 54 := by decide
  have e9 : ('9' : Char).val.toBitVec.toNat = 57 := by decide
  rw [e6] at h1
  rw [e9] at h2
  rw [Char.isDigit]
  simp only [ge_iff_le, UInt32.le_def, BitVec.le_def, Bool.and_eq_true, decide_eq_true_eq]
  have e48 : (48 : UInt32).toBitVec.toNat = 48 := by decide
  have e57 : (57 : UInt32).toBitVec.toNat = 57 := by decide
  rw [e48, e57]
  omega

theorem digit_toLower (c : Char) (h : c.isDigit = true) : c.toLower = c := by
  rw [Char.isDigit] at h
  simp only [Bool.and_eq_true, decide_eq_true_eq, ge_iff_le, UInt32.le_def, BitVec.le_def] at h
  have e57 : (57 : UInt32).toBitVec.toNat = 57 := by decide
  rw [e57] at h
  rw [Char.toLower]
  rw [if_neg]
  rintro ⟨h65, -⟩
  rw [Char.toNat, UInt32.toNat] at h65
  omega

theorem digit_not_space (c : Char) (h : c.isDigit = true) : isSpaceChar c = false := by
  rw [Char.isDigit] at h
  simp only [Bool.and_eq_true, decide_eq_true_eq, ge_iff_le, UInt32.le_def, BitVec.le_def] at h
  have e48 : (48 : UInt32).toBitVec.toNat = 48 := by decide
  rw [e48] at h
  rw [isSpaceChar]
  simp only [Bool.or_eq_false_iff, beq_eq_false_iff_ne]
  refine ⟨⟨⟨⟨⟨?_, ?_⟩, ?_⟩, ?_⟩, ?_⟩, ?_⟩ <;>
    (rintro rfl; revert h; decide)

theorem dropWhile_space_eq_self (m : List Char) (hm : ∀ c ∈ m, isSpaceChar c = false) :
    m.dropWhile isSpaceChar = m := by
  cases m with
  | nil => rfl
  | cons a as => simp [List.dropWhile_cons, hm a (List.mem_cons_self a as)]

theorem trimL_digits (l : List Char) (h : ∀ c ∈ l, c.isDigit = true) : trimL l = l := by
  have h' : ∀ c ∈ l, isSpaceChar c = false := fun c hc => digit_not_space c (h c hc)
  rw [trimL, dropWhile_space_eq_self l h',
    dropWhile_space_eq_self _ (fun c hc => h' c (List.mem_reverse.1 hc)), List.reverse_reverse]

theorem lowerL_digits (l : List Char) (h : ∀ c ∈ l, c.isDigit = true) : lowerL l = l := by
  induction l with
  | nil => rfl
  | cons a as ih =>
    rw [lowerL, List.map_cons, digit_toLower a (h a (List.mem_cons_self a as))]
    have := ih fun c hc => h c (List.mem_cons_of_mem _ hc)
    rw [lowerL] at this
    rw [this]

theorem stripDot0_digits (l : List Char) (h : ∀ c ∈ l, c.isDigit = true) : stripDot0 l = l := by
  unfold stripDot0
  split
  · rename_i rest heq
    exfalso
    have : ('.' : Char) ∈ l := by
      rw [← List.mem_reverse, heq]
      simp
    have hd := h _ this
    revert hd
    decide
  · rfl

theorem bareGo_digits_none : ∀ (l : List Char) (p : Char), p.isDigit = true →
    (∀ c ∈ l, c.isDigit = true) → CrossRel.bareGo (some p) l = none := by
  intro l
  induction l with
  | nil => intro p _ _; rfl
  | cons c rest ih =>
    intro p hp hl
    rw [CrossRel.bareGo]
    have hpnd : CrossRel.prevND (some p) = false := by rw [CrossRel.prevND]; simp [hp]
    rw [if_neg (by simp [hpnd])]
    exact ih c (hl c (List.mem_cons_self c rest)) fun x hx => hl x (List.mem_cons_of_mem _ hx)

theorem lead0Go_digits_none : ∀ (l : List Char) (p : Char), p.isDigit = true →
    (∀ c ∈ l, c.isDigit = true) → CrossRel.lead0Go (some p) l = none := by
  intro l
  induction l with
  | nil => intro p _ _; rfl
  | cons c rest ih =>
    intro p hp hl
    rw [CrossRel.lead0Go]
    have hpnd : CrossRel.prevND (some p) = false := by rw [CrossRel.prevND]; simp [hp]
    rw [if_neg (by simp [hpnd])]
    exact ih c (hl c (List.mem_cons_self c rest)) fun x hx => hl x (List.mem_cons_of_mem _ hx)

theorem headND_digits (m : List Char) (hm : ∀ c ∈ m, c.isDigit = true) :
    CrossRel.headND m = decide (m = []) := by
  cases m with
  | nil => rfl
  | cons a as =>
    rw [CrossRel.headND]
    simp [hm a (List.mem_cons_self a as)]

theorem bareSearch_digits (l : List Char) (hd : ∀ c ∈ l, c.isDigit = true) :
    CrossRel.bareSearch l =
      if l.length = 10 ∧ CrossRel.isMob (l.headD ' ') = true then some l else none := by
  cases l with
  | nil => simp [CrossRel.bareSearch, CrossRel.bareGo]
  | cons c rest =>
    rw [CrossRel.bareSearch, CrossRel.bareGo]
    have hrest : ∀ x ∈ rest, x.isDigit = true := fun x hx => hd x (List.mem_cons_of_mem _ hx)
    have htake : (rest.take 9).all Char.isDigit = true :=
      List.all_eq_true.2 fun x hx => hrest x (List.take_subset _ _ hx)
    have hdropnd : CrossRel.headND (rest.drop 9) = decide (rest.drop 9 = []) :=
      headND_digits _ fun x hx => hrest x (List.mem_of_mem_drop hx)
    have hdropempty : (rest.drop 9 = []) ↔ rest.length ≤ 9 := by
      rw [List.drop_eq_nil_iff]
    rcases Nat.lt_trichotomy rest.length 9 with hlen | hlen | hlen
    · rw [if_neg (by simp; omega)]
      rw [bareGo_digits_none rest c (hd c (List.mem_cons_self c rest)) hrest]
      rw [if_neg (by simp; omega)]
    · by_cases hmob : CrossRel.isMob c = true
      · rw [if_pos]
        · rw [List.take_of_length_le (by omega)]
          rw [if_pos (by simp [hmob]; omega)]
        · simp [CrossRel.prevND, hmob, htake, hdropnd, hdropempty]
          omega
      · rw [if_neg (by simp [CrossRel.prevND]; intro h; exact absurd h hmob)]
        rw [bareGo_digits_none rest c (hd c (List.mem_cons_self c rest)) hrest]
        rw [if_neg (by simp [hmob])]
    · rw [if_neg (by simp [hdropnd, hdropempty]; omega)]
      rw [bareGo_digits_none rest c (hd c (List.mem_cons_self c rest)) hrest]
      rw [if_neg (by simp; omega)]

theorem lead0Search_digits (l : List Char) (hd : ∀ c ∈ l, c.isDigit = true) :
    CrossRel.lead0Search l =
      if l.length = 11 ∧ l.headD ' ' = '0' ∧ CrossRel.isMob (l.tail.headD ' ') = true then
        some l.tail
      else none := by
  cases l with
  | nil => simp [CrossRel.lead0Search, CrossRel.lead0Go]
  | cons c rest =>
    rw [CrossRel.lead0Search, CrossRel.lead0Go]
    have hrest : ∀ x ∈ rest, x.isDigit = true := fun x hx => hd x (List.mem_cons_of_mem _ hx)
    have htake : ((rest.drop 1).take 9).all Char.isDigit = true :=
      List.all_eq_true.2 fun x hx =>
        hrest x (List.mem_of_mem_drop (List.take_subset _ _ hx))
    have hdropnd : CrossRel.headND (rest.drop 10) = decide (rest.drop 10 = []) :=
      headND_digits _ fun x hx => hrest x (List.mem_of_mem_drop hx)
    have hdropempty : (rest.drop 10 = []) ↔ rest.length ≤ 10 := by
      rw [List.drop_eq_nil_iff]
    by_cases hc0 : c = '0'
    · subst hc0
      rcases Nat.lt_trichotomy rest.length 10 with hlen | hlen | hlen
      · have h10f : decide (10 ≤ rest.length) = false := decide_eq_false (by omega)
        have hgf : (CrossRel.prevND none && ('0' == '0') && decide (10 ≤ rest.length) &&
            CrossRel.isMob (rest.headD ' ') && ((rest.drop 1).take 9).all Char.isDigit &&
            CrossRel.headND (rest.drop 10)) = false := by
          simp only [h10f, Bool.and_false, Bool.false_and]
        rw [if_neg (by rw [hgf]; simp)]
        rw [lead0Go_digits_none rest '0' (by decide) hrest]
        rw [if_neg (by rintro ⟨h1, -, -⟩; simp at h1; omega)]
      · by_cases hmob : CrossRel.isMob (rest.headD ' ') = true
        · have h10 : decide (10 ≤ rest.length) = true := decide_eq_true (by omega)
          have hnd : CrossRel.headND (rest.drop 10) = true := by
            rw [hdropnd]
            exact decide_eq_true (hdropempty.2 (by omega))
          have hg : (CrossRel.prevND none && ('0' == '0') && decide (10 ≤ rest.length) &&
              CrossRel.isMob (rest.headD ' ') && ((rest.drop 1).take 9).all Char.isDigit &&
              CrossRel.headND (rest.drop 10)) = true := by
            simp only [h10, hmob, htake, hnd, Bool.and_true, Bool.true_and]
            rfl
          rw [if_pos hg]
          rw [List.take_of_length_le (by omega)]
          rw [if_pos ⟨by simp [hlen], rfl, hmob⟩]
          rfl
        · have hmobf : CrossRel.isMob (rest.headD ' ') = false := by
            simpa using hmob
          have hgf : (CrossRel.prevND none && ('0' == '0') && decide (10 ≤ rest.length) &&
              CrossRel.isMob (rest.headD ' ') && ((rest.drop 1).take 9).all Char.isDigit &&
              CrossRel.headND (rest.drop 10)) = false := by
            simp only [hmobf, Bool.and_false, Bool.false_and]
          rw [if_neg (by rw [hgf]; simp)]
          rw [lead0Go_digits_none rest '0' (by decide) hrest]
          rw [if_neg (by rintro ⟨-, -, h3⟩; exact hmob h3)]
      · have hndf : CrossRel.headND (rest.drop 10) = false := by
          rw [hdropnd]
          exact decide_eq_false fun he => by
            have := hdropempty.1 he
            omega
        have hgf : (CrossRel.prevND none && ('0' == '0') && decide (10 ≤ rest.length) &&
            CrossRel.isMob (rest.headD ' ') && ((rest.drop 1).take 9).all Char.isDigit &&
            CrossRel.headND (rest.drop 10)) = false := by
          simp only [hndf, Bool.and_false]
        rw [if_neg (by rw [hgf]; simp)]
        rw [lead0Go_digits_none rest '0' (by decide) hrest]
        rw [if_neg (by rintro ⟨h1, -, -⟩; simp at h1; omega)]
    · have hc0beq : (c == '0') = false := beq_eq_false_iff_ne.2 hc0
      have hgf : (CrossRel.prevND none && (c == '0') && decide (10 ≤ rest.length) &&
          CrossRel.isMob (rest.headD ' ') && ((rest.drop 1).take 9).all Char.isDigit &&
          CrossRel.headND (rest.drop 10)) = false := by
        simp only [hc0beq, Bool.and_false, Bool.false_and]
      rw [if_neg (by rw [hgf]; simp)]
      rw [lead0Go_digits_none rest c (hd c (List.mem_cons_self c rest)) hrest]
      rw [if_neg (by rintro ⟨-, h2, -⟩; exact hc0 h2)]

theorem normPhoneList_digits (l : List Char) (hd : ∀ c ∈ l, c.isDigit = true) (hne : l ≠ []) :
    CrossRel.normPhoneList l =
      (if l.length = 10 ∧ CrossRel.isMob (l.headD ' ') = true then some l
       else if l.length = 11 ∧ l.headD ' ' = '0' ∧ CrossRel.isMob (l.tail.headD ' ') = true then
         some l.tail
       else if 10 ≤ l.length then
         if l.take 2 = ['9', '1'] ∧ l.length = 12 ∧ CrossRel.isMob (l.getD 2 ' ') then
           some (l.drop 2)
         else if l.take 1 = ['0'] ∧ l.length = 11 ∧ CrossRel.isMob (l.getD 1 ' ') then
           some (l.drop 1)
         else if l.length = 10 then some l
         else if l.length ≤ 12 then some (l.drop (l.length - 10))
         else none
       else if 7 ≤ l.length then some l
       else none) := by
  have hts : trimL l = l := trimL_digits l hd
  have hlow : lowerL l = l := lowerL_digits l hd
  have hsd : stripDot0 l = l := stripDot0_digits l hd
  have hfil : l.filter Char.isDigit = l := List.filter_eq_self.2 hd
  have hword : ∀ w : List Char, ('n' ∈ w) → l ≠ w := by
    intro w hw heq
    have hn := hd 'n' (heq ▸ hw)
    revert hn
    decide
  have hnan : ¬(l = [] ∨ l = "nan".toList ∨ l = "none".toList ∨ l = "null".toList) := by
    rintro (h | h | h | h)
    · exact hne h
    · exact hword _ (by decide) h
    · exact hword _ (by decide) h
    · exact hword _ (by decide) h
  rw [CrossRel.normPhoneList]
  simp only [hts, hlow, hsd, hfil]
  rw [if_neg hnan]
  rw [if_neg hne]
  rw [bareSearch_digits l hd, lead0Search_digits l hd]
  by_cases hb : l.length = 10 ∧ CrossRel.isMob (l.headD ' ') = true
  · simp only [if_pos hb]
  · simp only [if_neg hb]
    by_cases hl0 : l.length = 11 ∧ l.headD ' ' = '0' ∧ CrossRel.isMob (l.tail.headD ' ') = true
    · simp only [if_pos hl0]
    · simp only [if_neg hl0]

theorem bareGo_shape : ∀ (l : List Char) (prev : Option Char) (r : List Char),
    CrossRel.bareGo prev l = some r →
    (∀ c ∈ r, c.isDigit = true) ∧ r.length = 10 ∧ CrossRel.isMob (r.headD ' ') = true := by
  intro l
  induction l with
  | nil => intro prev r h; cases h
  | cons c rest ih =>
    intro prev r h
    rw [CrossRel.bareGo] at h
    split at h
    · rename_i hguard
      injection h with h'
      subst h'
      simp only [Bool.and_eq_true] at hguard
      obtain ⟨⟨⟨⟨hprev, hmob⟩, hlen⟩, hall⟩, hnd⟩ := hguard
      have hlen' := of_decide_eq_true hlen
      refine ⟨?_, ?_, by simpa using hmob⟩
      · intro x hx
        rcases List.mem_cons.1 hx with rfl | hx
        · exact mob_isDigit _ hmob
        · exact List.all_eq_true.1 hall x hx
      · simp only [List.length_cons, List.length_take]
        omega
    · exact ih _ _ h

theorem lead0Go_shape : ∀ (l : List Char) (prev : Option Char) (r : List Char),
    CrossRel.lead0Go prev l = some r →
    (∀ c ∈ r, c.isDigit = true) ∧ r.length = 10 ∧ CrossRel.isMob (r.headD ' ') = true := by
  intro l
  induction l with
  | nil => intro prev r h; cases h
  | cons c rest ih =>
    intro prev r h
    rw [CrossRel.lead0Go] at h
    split at h
    · rename_i hguard
      injection h with h'
      subst h'
      simp only [Bool.and_eq_true] at hguard
      obtain ⟨⟨⟨⟨⟨hprev, hc0⟩, hlen⟩, hmob⟩, hall⟩, hnd⟩ := hguard
      have hlen' := of_decide_eq_true hlen
      cases rest with
      | nil => simp at hlen'
      | cons r0 rtl =>
        have htake10 : (r0 :: rtl).take 10 = r0 :: rtl.take 9 := rfl
        rw [htake10]
        have hmob' : CrossRel.isMob r0 = true := by simpa using hmob
        have hall' : ∀ x ∈ rtl.take 9, x.isDigit = true := by
          intro x hx
          exact List.all_eq_true.1 hall x (by simpa using hx)
        refine ⟨?_, ?_, by simpa using hmob'⟩
        · intro x hx
          rcases List.mem_cons.1 hx with rfl | hx
          · exact mob_isDigit _ hmob'
          · exact hall' x hx
        · simp only [List.length_cons, List.length_take]
          simp only [List.length_cons] at hlen'
          omega
    · exact ih _ _ h

theorem normPhoneList_shape (l r : List Char) (h : CrossRel.normPhoneList l = some r) :
    (∀ c ∈ r, c.isDigit = true) ∧ 7 ≤ r.length ∧ r.length ≤ 10 := by
  rw [CrossRel.normPhoneList] at h
  have hdall : ∀ x ∈ (stripDot0 (trimL l)).filter Char.isDigit, x.isDigit = true :=
    fun x hx => List.of_mem_filter hx
  split at h
  · cases h
  · dsimp only at h
    split at h
    · cases h
    · split at h
      · rename_i r' heq
        injection h with h'
        subst h'
        have := bareGo_shape _ _ _ heq
        exact ⟨this.1, by omega, by omega⟩
      · split at h
        · rename_i r' heq
          injection h with h'
          subst h'
          have := lead0Go_shape _ _ _ heq
          exact ⟨this.1, by omega, by omega⟩
        · split at h
          · split at h
            · rename_i h10 hc91
              injection h with h'
              subst h'
              refine ⟨fun x hx => hdall x (List.mem_of_mem_drop hx), ?_, ?_⟩ <;>
                · rw [List.length_drop]
                  omega
            · split at h
              · rename_i h10 hc91 hc0
                injection h with h'
                subst h'
                refine ⟨fun x hx => hdall x (List.mem_of_mem_drop hx), ?_, ?_⟩ <;>
                  · rw [List.length_drop]
                    omega
              · split at h
                · rename_i hl10
                  injection h with h'
                  subst h'
                  exact ⟨hdall, by omega, by omega⟩
                · split at h
                  · rename_i h12
                    injection h with h'
                    subst h'
                    refine ⟨fun x hx => hdall x (List.mem_of_mem_drop hx), ?_, ?_⟩ <;>
                      · rw [List.length_drop]
                        omega
                  · cases h
          · split at h
            · rename_i h10 h7
              injection h with h'
              subst h'
              exact ⟨hdall, h7, by omega⟩
            · cases h

theorem tail_headD_eq_getD (l : List Char) : l.tail.headD ' ' = l.getD 1 ' ' := by
  cases l with
  | nil => rfl
  | cons a as =>
    cases as with
    | nil => rfl
    | cons b bs => rfl

theorem normPhoneList_idem (l r : List Char) (h : CrossRel.normPhoneList l = some r) :
    CrossRel.normPhoneList r = some r := by
  obtain ⟨hdig, h7, h10⟩ := normPhoneList_shape l r h
  have hne : r ≠ [] := by
    intro he
    subst he
    simp at h7
  rw [normPhoneList_digits r hdig hne]
  by_cases hb : r.length = 10 ∧ CrossRel.isMob (r.headD ' ') = true
  · rw [if_pos hb]
  · rw [if_neg hb]
    rw [if_neg (by rintro ⟨h11, -, -⟩; omega)]
    by_cases h10' : r.length = 10
    · rw [if_pos (by omega : 10 ≤ r.length)]
      rw [if_neg (by rintro ⟨-, h12, -⟩; omega)]
      rw [if_neg (by rintro ⟨-, h11, -⟩; omega)]
      rw [if_pos h10']
    · rw [if_neg (by omega : ¬ 10 ≤ r.length)]
      rw [if_pos h7]

/-- C2: `normalize_phone` follows the spec §4.1 priority rules.  In order:
every 10-digit string starting 6–9 is returned as-is (bare-mobile regex),
the embedded-mobile example extracts the mobile; on digit-only strings:
`91` + 10 with 3rd digit 6–9 drops the prefix, `0` + 10 with 2nd digit 6–9
drops the zero, exactly 10 digits pass through, 11–12 digits keep the last
10, more than 12 digits give null, 7–9 digits pass through, and fewer than
7 digits give null. -/
theorem c2_normalize_phone_priority :
    (∀ d : List Char, (∀ c ∈ d, c.isDigit = true) → d.length = 10 →
      CrossRel.isMob (d.headD ' ') = true → CrossRel.normPhoneList d = some d) ∧
    CrossRel.normalize_phone "9848360170(M) 08468 229462" = some "9848360170" ∧
    (∀ d : List Char, (∀ c ∈ d, c.isDigit = true) → d.take 2 = ['9', '1'] →
      d.length = 12 → CrossRel.isMob (d.getD 2 ' ') = true →
      CrossRel.normPhoneList d = some (d.drop 2)) ∧
    (∀ d : List Char, (∀ c ∈ d, c.isDigit = true) → d.headD ' ' = '0' →
      d.length = 11 → CrossRel.isMob (d.getD 1 ' ') = true →
      CrossRel.normPhoneList d = some (d.drop 1)) ∧
    CrossRel.normalize_phone "919876543210" = some "9876543210" ∧
    CrossRel.normalize_phone "09876543210" = some "9876543210" ∧
    (∀ d : List Char, (∀ c ∈ d, c.isDigit = true) → d.length = 10 →
      CrossRel.normPhoneList d = some d) ∧
    (∀ d : List Char, (∀ c ∈ d, c.isDigit = true) → 11 ≤ d.length → d.length ≤ 12 →
      CrossRel.normPhoneList d = some (d.drop (d.length - 10))) ∧
    (∀ d : List Char, (∀ c ∈ d, c.isDigit = true) → 13 ≤ d.length →
      CrossRel.normPhoneList d = none) ∧
    CrossRel.normalize_phone "1234567890123" = none ∧
    (∀ d : List Char, (∀ c ∈ d, c.isDigit = true) → 7 ≤ d.length → d.length ≤ 9 →
      CrossRel.normPhoneList d = some d) ∧
    (∀ d : List Char, (∀ c ∈ d, c.isDigit = true) → d.length < 7 →
      CrossRel.normPhoneList d = none) := by
  have hnegen : ∀ d : List Char, 1 ≤ d.length → d ≠ [] := by
    intro d h he
    subst he
    simp at h
  refine ⟨?_, by decide, ?_, ?_, by decide, by decide, ?_, ?_, ?_, by decide, ?_, ?_⟩
  · intro d hd hlen hmob
    rw [normPhoneList_digits d hd (hnegen d (by omega))]
    rw [if_pos ⟨hlen, hmob⟩]
  · intro d hd ht2 hlen hmob
    rw [normPhoneList_digits d hd (hnegen d (by omega))]
    rw [if_neg (by rintro ⟨h', -⟩; omega)]
    rw [if_neg (by rintro ⟨h', -, -⟩; omega)]
    rw [if_pos (by omega : 10 ≤ d.length)]
    rw [if_pos ⟨ht2, hlen, hmob⟩]
  · intro d hd hhead hlen hmob
    rw [normPhoneList_digits d hd (hnegen d (by omega))]
    rw [if_neg (by rintro ⟨h', -⟩; omega)]
    rw [if_pos ⟨hlen, hhead, by rw [tail_headD_eq_getD]; exact hmob⟩]
    rw [List.drop_one]
  · intro d hd hlen
    rw [normPhoneList_digits d hd (hnegen d (by omega))]
    by_cases hmob : CrossRel.isMob (d.headD ' ') = true
    · rw [if_pos ⟨hlen, hmob⟩]
    · rw [if_neg (by rintro ⟨-, h'⟩; exact hmob h')]
      rw [if_neg (by rintro ⟨h', -, -⟩; omega)]
      rw [if_pos (by omega : 10 ≤ d.length)]
      rw [if_neg (by rintro ⟨-, h', -⟩; omega)]
      rw [if_neg (by rintro ⟨-, h', -⟩; omega)]
      rw [if_pos hlen]
  · intro d hd h11 h12
    rw [normPhoneList_digits d hd (hnegen d (by omega))]
    rw [if_neg (by rintro ⟨h', -⟩; omega)]
    by_cases hl0 : d.length = 11 ∧ d.headD ' ' = '0' ∧ CrossRel.isMob (d.tail.headD ' ') = true
    · rw [if_pos hl0]
      rw [show d.length - 10 = 1 from by omega, List.drop_one]
    · rw [if_neg hl0]
      rw [if_pos (by omega : 10 ≤ d.length)]
      by_cases h91 : d.take 2 = ['9', '1'] ∧ d.length = 12 ∧ CrossRel.isMob (d.getD 2 ' ') = true
      · rw [if_pos h91]
        rw [show d.length - 10 = 2 from by omega]
      · rw [if_neg h91]
        by_cases h0 : d.take 1 = ['0'] ∧ d.length = 11 ∧ CrossRel.isMob (d.getD 1 ' ') = true
        · rw [if_pos h0]
          rw [show d.length - 10 = 1 from by omega]
        · rw [if_neg h0]
          rw [if_neg (by omega : ¬ d.length = 10)]
          rw [if_pos h12]
  · intro d hd h13
    rw [normPhoneList_digits d hd (hnegen d (by omega))]
    rw [if_neg (by rintro ⟨h', -⟩; omega)]
    rw [if_neg (by rintro ⟨h', -, -⟩; omega)]
    rw [if_pos (by omega : 10 ≤ d.length)]
    rw [if_neg (by rintro ⟨-, h', -⟩; omega)]
    rw [if_neg (by rintro ⟨-, h', -⟩; omega)]
    rw [if_neg (by omega : ¬ d.length = 10)]
    rw [if_neg (by omega : ¬ d.length ≤ 12)]
  · intro d hd h7 h9
    rw [normPhoneList_digits d hd (hnegen d (by omega))]
    rw [if_neg (by rintro ⟨h', -⟩; omega)]
    rw [if_neg (by rintro ⟨h', -, -⟩; omega)]
    rw [if_neg (by omega : ¬ 10 ≤ d.length)]
    rw [if_pos h7]
  · intro d hd hlt
    cases d with
    | nil => decide
    | cons c rest =>
      rw [normPhoneList_digits _ hd (by simp)]
      rw [if_neg (by rintro ⟨h', -⟩; omega)]
      rw [if_neg (by rintro ⟨h', -, -⟩; omega)]
      rw [if_neg (by omega : ¬ 10 ≤ (c :: rest).length)]
      rw [if_neg (by omega : ¬ 7 ≤ (c :: rest).length)]

/-- C9: `normalize_phone` is idempotent on its non-null results: feeding a
non-null result back in returns it unchanged. -/
theorem c9_normalize_phone_idempotent (x r : String) (h : CrossRel.normalize_phone x = some r) :
    CrossRel.normalize_phone r = some r := by
  rw [CrossRel.normalize_phone] at h
  rcases Option.map_eq_some'.1 h with ⟨l', hl', rfl⟩
  rw [CrossRel.normalize_phone]
  have hidem := normPhoneList_idem _ _ hl'
  have htl : (String.mk l').toList = l' := rfl
  rw [htl, hidem]
  rfl

/-- Witness for C9 at `984-836-0170`, whose normal form `9848360170` is a
fixed point. -/
theorem c9_normalize_phone_idempotent_witness : CrossRel.normalize_phone "9848360170" = some "9848360170" :=
  c9_normalize_phone_idempotent "984-836-0170" "9848360170" (by decide)

/-- C10: every non-null `normalize_phone` result is a digit-only string of
length between 7 and 10 (in particular never 11 or 12 digits). -/
theorem c10_normalize_phone_output_shape (x r : String) (h : CrossRel.normalize_phone x = some r) :
    (∀ c ∈ r.toList, c.isDigit = true) ∧ 7 ≤ r.length ∧ r.length ≤ 10 := by
  rw [CrossRel.normalize_phone] at h
  rcases Option.map_eq_some'.1 h with ⟨l', hl', rfl⟩
  exact normPhoneList_shape _ _ hl'

/-- Witness for C10 at the embedded-mobile example. -/
theorem c10_normalize_phone_output_shape_witness :
    (∀ c ∈ ("9848360170" : String).toList, c.isDigit = true) ∧
    7 ≤ ("9848360170" : String).length ∧ ("9848360170" : String).length ≤ 10 :=
  c10_normalize_phone_output_shape "9848360170(M) 08468 229462" "9848360170" (by decide)

/-- Witness for C2: the bare-mobile rule applied to `6123456789`. -/
theorem c2_normalize_phone_priority_witness : CrossRel.normPhoneList "6123456789".toList = some "6123456789".toList :=
  c2_normalize_phone_priority.1 "6123456789".toList (by decide) (by decide) (by decide)
